import Mathlib

/-!
Shallow embedding of the annotation engine of `app.py` (OnePlacePDF,
Flask + PyMuPDF): the geometry helpers, the server apply pipeline
(`/annotate`), the version ledger (`/revert`), and the client editor
from the inline `INDEX_HTML` script (snapshot-based undo/redo, hit
testing, ink commit, drag-to-action building).  Coordinates are
modelled as rationals; PyMuPDF floats are exact here, so every
comparison in the source is mirrored verbatim.
-/

/-- `fitz.Rect(x0, y0, x1, y1)`. -/
structure Rect where
  x0 : ℚ
  y0 : ℚ
  x1 : ℚ
  y1 : ℚ
deriving DecidableEq

/-- PyMuPDF `Rect.width`, documented as `abs(x1 - x0)`. -/
def Rect.width (r : Rect) : ℚ := |r.x1 - r.x0|

/-- PyMuPDF `Rect.height`, documented as `abs(y1 - y0)`. -/
def Rect.height (r : Rect) : ℚ := |r.y1 - r.y0|

/-- A point in either pixel or document space (`fitz.Point` / JS `[x,y]`). -/
abbrev Point := ℚ × ℚ

/-- Python `_clip_rect(r, page_rect)`: clamp every coordinate of `r`
into the corresponding axis interval of `page_rect`. -/
def _clip_rect (r page_rect : Rect) : Rect :=
  { x0 := max page_rect.x0 (min page_rect.x1 r.x0)
    y0 := max page_rect.y0 (min page_rect.y1 r.y0)
    x1 := max page_rect.x0 (min page_rect.x1 r.x1)
    y1 := max page_rect.y0 (min page_rect.y1 r.y1) }

/-- Python `_ensure_min_rect(r, page_rect, min_w, min_h)`: expand each
axis around the centre of `r` to at least the minimum size, clip to the
page, and if the clipped rect is degenerate fall back to the clipped
minimum-size rect centred at the original centre.  The sequential
mutations of the source are written as successive lets. -/
def _ensure_min_rect (r page_rect : Rect) (min_w min_h : ℚ) : Rect :=
  let cx := (r.x0 + r.x1) / 2
  let cy := (r.y0 + r.y1) / 2
  let r1 := if r.width < min_w then { r with x0 := cx - min_w / 2, x1 := cx + min_w / 2 } else r
  let r2 := if r1.height < min_h then { r1 with y0 := cy - min_h / 2, y1 := cy + min_h / 2 } else r1
  let r3 := _clip_rect r2 page_rect
  if r3.width ≤ 0 ∨ r3.height ≤ 0 then
    _clip_rect ⟨cx - min_w / 2, cy - min_h / 2, cx + min_w / 2, cy + min_h / 2⟩ page_rect
  else r3

/-- Python `_scale_rect(rect, page_rect, viewport)`.  The viewport entries
are the integer canvas dimensions sent by the client (the source applies
`int(...)` to them, the identity on integers). -/
def _scale_rect (rect : ℚ × ℚ × ℚ × ℚ) (page_rect : Rect) (viewport : ℤ × ℤ) : Rect :=
  let vx : ℤ := max 1 viewport.1
  let vy : ℤ := max 1 viewport.2
  let sx : ℚ := page_rect.width / (vx : ℚ)
  let sy : ℚ := page_rect.height / (vy : ℚ)
  match rect with
  | (x0, y0, x1, y1) => ⟨x0 * sx, y0 * sy, x1 * sx, y1 * sy⟩

/-- Python `_scale_point(pt, page_rect, viewport)`. -/
def _scale_point (pt : Point) (page_rect : Rect) (viewport : ℤ × ℤ) : Point :=
  let vx : ℤ := max 1 viewport.1
  let vy : ℤ := max 1 viewport.2
  let sx : ℚ := page_rect.width / (vx : ℚ)
  let sy : ℚ := page_rect.height / (vy : ℚ)
  (pt.1 * sx, pt.2 * sy)

/-- One entry of the `actions` array of a `/annotate` request, as built by
the client.  `rect` is present for rect-like kinds, `pts` is the JSON
`points` field of `line`/`arrow` (a pair of points), `strokes` is the
JSON `points` field of `ink` (a list of strokes).  Styling fields
(`color`, `thickness`, `opacity`, fonts) are not modelled: no claim
mentions them. -/
structure AnnotAction where
  type : String
  page : ℤ
  viewport : ℤ × ℤ
  rect : ℚ × ℚ × ℚ × ℚ := (0, 0, 0, 0)
  pts : List Point := []
  strokes : List (List Point) := []

/-- The action kinds handled by the `if t in (...)` rect branch of
`annotate`. -/
def rectTypes : List String :=
  ["highlight", "strikeout", "shape_rect", "shape_circle", "textbox", "signature", "tick", "cross"]

/-- All action kinds the `annotate` dispatch recognises. -/
def knownTypes : List String := rectTypes ++ ["line", "arrow", "ink"]

/-- Resolution of `pdf[a["page"]]` (PyMuPDF `Document.__getitem__` /
`load_page`): an integer index fails with "page not in document" iff it
is `≥ page_count`; a negative index has `page_count` added to it until
it is nonnegative (so `pdf[-1]` is the last page), which for a
nonempty document is the Euclidean remainder.  The default rect is
unreachable (the remainder is a valid position).  An empty document is
modelled as an error on every index; `annotate` is only ever called
with a freshly opened, nonempty document. -/
def resolvePage (pages : List Rect) (i : ℤ) : Except String Rect :=
  if (pages.length : ℤ) ≤ i then .error "page not in document"
  else if pages.length = 0 then .error "page not in document"
  else .ok (pages.getD (i.emod (pages.length : ℤ)).toNat ⟨0, 0, 0, 0⟩)

/-- The annotations one action writes onto its page.  The per-kind
PyMuPDF calls (colors, opacity, arrowheads, text layout, image
placement) are abstracted: a rect-like kind writes its final document
rect, `line`/`arrow` write their two endpoints, `ink` writes its
surviving strokes. -/
inductive Written where
  | rectAnnot : String → Rect → Written
  | lineAnnot : Point → Point → Written
  | inkAnnot : List (List Point) → Written
deriving DecidableEq

/-- One iteration of the `for a in actions` loop of `annotate`: resolve
the page, then dispatch on `a["type"]`; a kind matching no branch falls
through the `elif` chain and writes nothing. -/
def applyAction (pages : List Rect) (a : AnnotAction) : Except String (List Written) := do
  let page_rect ← resolvePage pages a.page
  if a.type ∈ rectTypes then
    let rect := _ensure_min_rect (_clip_rect (_scale_rect a.rect page_rect a.viewport) page_rect)
      page_rect 2 2
    pure [Written.rectAnnot a.type rect]
  else if a.type = "line" ∨ a.type = "arrow" then
    match a.pts with
    | p1px :: p2px :: _ =>
      let p1 := _scale_point p1px page_rect a.viewport
      let p2 := _scale_point p2px page_rect a.viewport
      let q2 := if p1 = p2 then (min page_rect.x1 (p2.1 + 5), min page_rect.y1 (p2.2 + 5)) else p2
      pure [Written.lineAnnot p1 q2]
    | _ => .error "missing points"
  else if a.type = "ink" then
    let strokes := (a.strokes.map (fun s => s.map (fun p => _scale_point p page_rect a.viewport))).filter
      (fun s => 1 < s.length)
    if strokes.isEmpty then pure [] else pure [Written.inkAnnot strokes]
  else
    pure []

/-- The action loop of `annotate`: the first raised exception aborts the
whole request (the surrounding `try` catches it before any ledger
mutation). -/
def processActions (pages : List Rect) : List AnnotAction → Except String (List Written)
  | [] => .ok []
  | a :: rest => do
    let w ← applyAction pages a
    let ws ← processActions pages rest
    pure (w ++ ws)

/-- The server-side record `DOCS[doc_id]`: current working key and the
version ledger (keys modelled as naturals). -/
structure DocState where
  working : ℕ
  versions : List ℕ
deriving DecidableEq

/-- A JSON response of `/annotate` or `/revert`. -/
inductive Response where
  | okNothing : Response
  | okVersion : ℕ → Response
  | err : String → Response
deriving DecidableEq

/-- The `/annotate` handler: an empty action list is a no-op success;
otherwise the whole loop runs, any exception leaves `DOCS` untouched
and returns the error, and only after the loop finishes is the new key
stored as working version and appended to the ledger, answering with
the new version count. -/
def annotate (st : DocState) (pages : List Rect) (actions : List AnnotAction) (newKey : ℕ) :
    DocState × Response :=
  if actions.isEmpty then (st, .okNothing)
  else
    match processActions pages actions with
    | .error e => (st, .err e)
    | .ok _ =>
      let versions := st.versions ++ [newKey]
      ({ working := newKey, versions := versions }, .okVersion versions.length)

/-- The `/revert` handler: with fewer than two versions it fails and
changes nothing; otherwise it pops the last ledger entry, the new last
entry becomes the working version (`vers[-1]`, modelled with a default
that is unreachable since the popped list is nonempty), and the new
count is reported. -/
def revert (st : DocState) : DocState × Response :=
  if st.versions.length < 2 then (st, .err "no previous version")
  else
    let vers := st.versions.dropLast
    ({ working := vers.getLastD 0, versions := vers }, .okVersion vers.length)

/-- Squared Euclidean distance.  The JS helper `dist` uses
`Math.hypot`; every use in the source is a comparison against a
nonnegative threshold, embedded here as the equivalent comparison of
squares. -/
def distSq (p q : Point) : ℚ := (p.1 - q.1) ^ 2 + (p.2 - q.2) ^ 2

/-- Squared version of the JS `pointToSegment(p, a, b)` (distance from
`p` to the segment `a`–`b`); the branch conditions are taken verbatim,
only the final distance is squared. -/
def pointToSegmentSq (p a b : Point) : ℚ :=
  let vx := b.1 - a.1
  let vy := b.2 - a.2
  let wx := p.1 - a.1
  let wy := p.2 - a.2
  let c1 := vx * wx + vy * wy
  if c1 ≤ 0 then distSq p a
  else
    let c2 := vx * vx + vy * vy
    if c2 ≤ c1 then distSq p b
    else
      let t := c1 / c2
      distSq p (a.1 + t * vx, a.2 + t * vy)

/-- A client-side pending action (an element of `state.stack`).  In the
JS both the `line`/`arrow` endpoint pair and the `ink` stroke list
travel in a field named `points`; they are separated here because their
shapes differ.  A JS `ink` or `line` action has no `rect` field (hit
testing the rect branch on one would fault in the source); the model
gives `rect` an unused default.  Styling fields are not modelled. -/
structure CAction where
  type : String
  page : ℕ
  rect : ℚ × ℚ × ℚ × ℚ := (0, 0, 0, 0)
  points : List Point := []
  strokes : List (List Point) := []
deriving DecidableEq

/-- The result `{index, page, handle}` of `hitTestAt`. -/
structure HitRes where
  index : ℕ
  page : ℕ
  handle : String
deriving DecidableEq

/-- The body of one iteration of the `hitTestAt` loop for the action at
index `i`: skip other pages; endpoint handles then segment distance for
`line`/`arrow` (a pair with fewer than two recorded points yields no
hit); corner handles in the order nw, ne, se, sw and then the padded
containment test for everything else.  `HANDLE = 8`, `HIT_PAD = 6`. -/
def hitOne (a : CAction) (i cp : ℕ) (x y : ℚ) : Option HitRes :=
  if a.page ≠ cp then none
  else if a.type = "line" ∨ a.type = "arrow" then
    match a.points with
    | p1 :: p2 :: _ =>
      if distSq (x, y) p1 ≤ 64 then some ⟨i, cp, "p1"⟩
      else if distSq (x, y) p2 ≤ 64 then some ⟨i, cp, "p2"⟩
      else if pointToSegmentSq (x, y) p1 p2 ≤ 36 then some ⟨i, cp, "move"⟩
      else none
    | _ => none
  else
    match a.rect with
    | (x0, y0, x1, y1) =>
      if |x - x0| ≤ 8 ∧ |y - y0| ≤ 8 then some ⟨i, cp, "nw"⟩
      else if |x - x1| ≤ 8 ∧ |y - y0| ≤ 8 then some ⟨i, cp, "ne"⟩
      else if |x - x1| ≤ 8 ∧ |y - y1| ≤ 8 then some ⟨i, cp, "se"⟩
      else if |x - x0| ≤ 8 ∧ |y - y1| ≤ 8 then some ⟨i, cp, "sw"⟩
      else if x0 - 6 ≤ x ∧ x ≤ x1 + 6 ∧ y0 - 6 ≤ y ∧ y ≤ y1 + 6 then some ⟨i, cp, "move"⟩
      else none

/-- The descending index loop of `hitTestAt` (`for i = length-1; i >= 0;
i--`), entered with the length and testing index `i` at step `i + 1`. -/
def hitTestGo (stack : List CAction) (cp : ℕ) (x y : ℚ) : ℕ → Option HitRes
  | 0 => none
  | i + 1 =>
    match stack[i]? with
    | some a =>
      match hitOne a i cp x y with
      | some h => some h
      | none => hitTestGo stack cp x y i
    | none => hitTestGo stack cp x y i

/-- JS `hitTestAt(x, y)`: first match while walking `state.stack` from
the newest action down. -/
def hitTestAt (stack : List CAction) (cp : ℕ) (x y : ℚ) : Option HitRes :=
  hitTestGo stack cp x y stack.length

/-- The client editor history state: `state.stack`, `state.history`
(JSON snapshots, modelled as the lists themselves since
`JSON.parse ∘ JSON.stringify` round-trips the stack), and
`state.historyIdx` (an integer: `resetStacks` passes through `-1`). -/
structure EditorState (α : Type) where
  stack : List α
  history : List (List α)
  historyIdx : ℤ
deriving DecidableEq

/-- JS `snapshot()`: truncate the history after the cursor, append a
snapshot of the stack, park the cursor on it. -/
def snapshot {α : Type} (s : EditorState α) : EditorState α :=
  let h := s.history.take (s.historyIdx + 1).toNat ++ [s.stack]
  { stack := s.stack, history := h, historyIdx := (h.length : ℤ) - 1 }

/-- JS `undo()`: move the cursor back one snapshot and restore it; no-op
when the cursor is at position 0. -/
def undo {α : Type} (s : EditorState α) : EditorState α :=
  if 0 < s.historyIdx then
    { stack := s.history.getD (s.historyIdx - 1).toNat [], history := s.history,
      historyIdx := s.historyIdx - 1 }
  else s

/-- JS `redo()`: move the cursor forward one snapshot and restore it;
no-op at the newest snapshot. -/
def redo {α : Type} (s : EditorState α) : EditorState α :=
  if s.historyIdx < (s.history.length : ℤ) - 1 then
    { stack := s.history.getD (s.historyIdx + 1).toNat [], history := s.history,
      historyIdx := s.historyIdx + 1 }
  else s

/-- Every mutation in the source (push on create, splice on delete, push
on duplicate, in-place edits) rewrites `state.stack` and then calls
`snapshot()`. -/
def mutateStack {α : Type} (f : List α → List α) (s : EditorState α) : EditorState α :=
  snapshot { s with stack := f s.stack }

/-- JS `resetStacks()`: empty stack, empty history, cursor `-1`, then
one snapshot (yielding history `[[]]`, cursor 0). -/
def resetStacks (α : Type) : EditorState α :=
  snapshot { stack := [], history := [], historyIdx := -1 }

/-- A whole editing session: a sequence of mutations applied in order. -/
def applyMuts {α : Type} : List (List α → List α) → EditorState α → EditorState α
  | [], s => s
  | f :: fs, s => applyMuts fs (mutateStack f s)

/-- `n` clicks of the Undo button. -/
def undoN {α : Type} : ℕ → EditorState α → EditorState α
  | 0, s => s
  | n + 1, s => undoN n (undo s)

/-- `n` clicks of the Redo button. -/
def redoN {α : Type} : ℕ → EditorState α → EditorState α
  | 0, s => s
  | n + 1, s => redoN n (redo s)

/-- The action the ink mouseup handler pushes
(`{type:'ink', page, points:[state.stroke], ...}`). -/
def inkAction (cp : ℕ) (stroke : List Point) : CAction :=
  { type := "ink", page := cp, strokes := [stroke] }

/-- The `state.tool === 'ink'` branch of the overlay mouseup handler:
commit the recorded stroke (push + snapshot) only when it has more than
one point. -/
def inkMouseUp (cp : ℕ) (stroke : List Point) (s : EditorState CAction) : EditorState CAction :=
  if 1 < stroke.length then mutateStack (fun st => st ++ [inkAction cp stroke]) s
  else s

/-- JS `buildActionFromDrag(p1, p2, preview)`.  `state.tool` and the
current page are parameters; `sigPresent` stands for
`state.signatureDataURL` being set.  `MIN_PIX = 3`; the `line`/`arrow`
guard `Math.hypot(...) < MIN_PIX` is embedded as the equivalent squared
comparison.  The textbox prompt text, the signature data URL payload
and the preview-only side effects (alert, prompt suppression) are not
modelled: they do not affect which/whether an action is returned. -/
def buildActionFromDrag (tool : String) (cp : ℕ) (sigPresent : Bool) (p1 p2 : Point) :
    Option CAction :=
  let rx0 := min p1.1 p2.1
  let ry0 := min p1.2 p2.2
  let rx1 := max p1.1 p2.1
  let ry1 := max p1.2 p2.2
  let rect : ℚ × ℚ × ℚ × ℚ := (rx0, ry0, rx1, ry1)
  let w := rx1 - rx0
  let h := ry1 - ry0
  if tool = "signature" then
    let rw := if w < 3 ∨ h < 3 then (180 : ℚ) else w
    let rh := if w < 3 ∨ h < 3 then (60 : ℚ) else h
    if sigPresent then some { type := "signature", page := cp, rect := (rx0, ry0, rx0 + rw, ry0 + rh) }
    else none
  else if tool = "textbox" then
    if w < 3 ∨ h < 3 then none else some { type := "textbox", page := cp, rect := rect }
  else if tool = "highlight" then
    if w < 3 ∨ h < 3 then none else some { type := "highlight", page := cp, rect := rect }
  else if tool = "strikeout" then
    if w < 3 ∨ h < 3 then none else some { type := "strikeout", page := cp, rect := rect }
  else if tool = "rect" then
    if w < 3 ∨ h < 3 then none else some { type := "shape_rect", page := cp, rect := rect }
  else if tool = "circle" then
    if w < 3 ∨ h < 3 then none else some { type := "shape_circle", page := cp, rect := rect }
  else if tool = "tick" then
    if w < 3 ∨ h < 3 then none else some { type := "tick", page := cp, rect := rect }
  else if tool = "cross" then
    if w < 3 ∨ h < 3 then none else some { type := "cross", page := cp, rect := rect }
  else if tool = "line" ∨ tool = "arrow" then
    if distSq p1 p2 < 9 then none
    else some { type := tool, page := cp, points := [p1, p2] }
  else none

/-- The successive values of `state.stack` produced by a list of
mutations applied in order (statement helper for the history law). -/
def runStacks {α : Type} : List (List α → List α) → List α → List (List α)
  | [], _ => []
  | f :: fs, st => f st :: runStacks fs (f st)

/-- Statement helper: every coordinate of `r` lies in the corresponding
axis interval of `P` (so the rect, degenerate or not, lies entirely
within `P`). -/
def rectWithin (r P : Rect) : Prop :=
  P.x0 ≤ r.x0 ∧ r.x0 ≤ P.x1 ∧ P.x0 ≤ r.x1 ∧ r.x1 ≤ P.x1 ∧
  P.y0 ≤ r.y0 ∧ r.y0 ≤ P.y1 ∧ P.y0 ≤ r.y1 ∧ r.y1 ≤ P.y1

lemma clamp_le (lo hi v : ℚ) (h : lo ≤ hi) : max lo (min hi v) ≤ hi :=
  max_le h (min_le_left hi v)

lemma clip_rect_within (r P : Rect) (hx : P.x0 ≤ P.x1) (hy : P.y0 ≤ P.y1) :
    rectWithin (_clip_rect r P) P := by
  unfold _clip_rect rectWithin
  exact ⟨le_max_left _ _, clamp_le _ _ _ hx, le_max_left _ _, clamp_le _ _ _ hx,
    le_max_left _ _, clamp_le _ _ _ hy, le_max_left _ _, clamp_le _ _ _ hy⟩

/-- C10: for every rect `r` and ordered page rect `P`, `_clip_rect r P`
lies entirely within `P`; and clamping both ends of an axis with the
same monotone clamp preserves the coordinate ordering of `r`. -/
theorem clip_rect_contained_and_ordered (r P : Rect) (hx : P.x0 ≤ P.x1) (hy : P.y0 ≤ P.y1) :
    rectWithin (_clip_rect r P) P ∧
    (r.x0 ≤ r.x1 → (_clip_rect r P).x0 ≤ (_clip_rect r P).x1) ∧
    (r.y0 ≤ r.y1 → (_clip_rect r P).y0 ≤ (_clip_rect r P).y1) := by
  refine ⟨clip_rect_within r P hx hy, ?_, ?_⟩ <;>
    · intro h
      exact max_le_max le_rfl (min_le_min le_rfl h)

/-- C10 witness: the clip of a rect poking out of a concrete page. -/
theorem clip_rect_contained_witness :
    rectWithin (_clip_rect ⟨-10, 20, 150, 130⟩ ⟨0, 0, 100, 100⟩) ⟨0, 0, 100, 100⟩ ∧
    ((-10 : ℚ) ≤ 150 → (_clip_rect ⟨-10, 20, 150, 130⟩ ⟨0, 0, 100, 100⟩).x0 ≤
      (_clip_rect ⟨-10, 20, 150, 130⟩ ⟨0, 0, 100, 100⟩).x1) ∧
    ((20 : ℚ) ≤ 130 → (_clip_rect ⟨-10, 20, 150, 130⟩ ⟨0, 0, 100, 100⟩).y0 ≤
      (_clip_rect ⟨-10, 20, 150, 130⟩ ⟨0, 0, 100, 100⟩).y1) :=
  clip_rect_contained_and_ordered ⟨-10, 20, 150, 130⟩ ⟨0, 0, 100, 100⟩ (by norm_num) (by norm_num)

/-- C4: `/revert` with a single-entry ledger fails and changes nothing;
with two or more entries it removes exactly the last entry, makes the
previous entry the working version, and reports the new count. -/
theorem revert_spec (st : DocState) :
    (st.versions.length = 1 → revert st = (st, .err "no previous version")) ∧
    (∀ (l : List ℕ) (x y : ℕ), st.versions = l ++ [x, y] →
      revert st = ({ working := x, versions := l ++ [x] }, .okVersion (l.length + 1))) := by
  constructor
  · intro h
    unfold revert
    rw [if_pos (by omega)]
  · intro l x y h
    have h2 : st.versions = (l ++ [x]) ++ [y] := by simp [h]
    unfold revert
    rw [if_neg (by simp [h])]
    simp [h2, List.dropLast_concat, List.getLastD_concat]

/-- C4 witness: a one-entry ledger rejects rollback; a two-entry ledger
pops to the first entry. -/
theorem revert_spec_witness :
    revert ⟨5, [5]⟩ = (⟨5, [5]⟩, .err "no previous version") ∧
    revert ⟨7, [5, 7]⟩ = (⟨5, [5]⟩, .okVersion 1) :=
  ⟨(revert_spec ⟨5, [5]⟩).1 rfl, (revert_spec ⟨7, [5, 7]⟩).2 [] 5 7 rfl⟩

/-- C3: `_scale_rect` multiplies each coordinate by the fixed per-axis
factor pageSize / max(1, viewportSize) — the mapping is linear per
axis — and for viewports of at least one pixel per axis, doubling the
stored viewport dimensions while holding the pixel rect fixed halves
the mapped rect's width and height. -/
theorem scale_rect_linear_halving (x0 y0 x1 y1 : ℚ) (P : Rect) (vw vh : ℤ) :
    _scale_rect (x0, y0, x1, y1) P (vw, vh) =
      ⟨x0 * (P.width / ((max 1 vw : ℤ) : ℚ)), y0 * (P.height / ((max 1 vh : ℤ) : ℚ)),
       x1 * (P.width / ((max 1 vw : ℤ) : ℚ)), y1 * (P.height / ((max 1 vh : ℤ) : ℚ))⟩ ∧
    (1 ≤ vw → 1 ≤ vh →
      (_scale_rect (x0, y0, x1, y1) P (2 * vw, 2 * vh)).width =
        (_scale_rect (x0, y0, x1, y1) P (vw, vh)).width / 2 ∧
      (_scale_rect (x0, y0, x1, y1) P (2 * vw, 2 * vh)).height =
        (_scale_rect (x0, y0, x1, y1) P (vw, vh)).height / 2) := by
  constructor
  · rfl
  · intro hw hh
    have h2w : max 1 (2 * vw) = 2 * vw := max_eq_right (by omega)
    have h1w : max 1 vw = vw := max_eq_right hw
    have h2h : max 1 (2 * vh) = 2 * vh := max_eq_right (by omega)
    have h1h : max 1 vh = vh := max_eq_right hh
    have hvw : (vw : ℚ) ≠ 0 := by exact_mod_cast (by omega : vw ≠ 0)
    have hvh : (vh : ℚ) ≠ 0 := by exact_mod_cast (by omega : vh ≠ 0)
    have h2vw : (2 : ℚ) * (vw : ℚ) ≠ 0 := mul_ne_zero two_ne_zero hvw
    have h2vh : (2 : ℚ) * (vh : ℚ) ≠ 0 := mul_ne_zero two_ne_zero hvh
    unfold _scale_rect
    dsimp only [Rect.width, Rect.height]
    rw [h2w, h1w, h2h, h1h]
    constructor
    · generalize |P.x1 - P.x0| = pw
      have key : x1 * (pw / ((2 * vw : ℤ) : ℚ)) - x0 * (pw / ((2 * vw : ℤ) : ℚ)) =
          (x1 * (pw / (vw : ℚ)) - x0 * (pw / (vw : ℚ))) / 2 := by
        have hc : ((2 * vw : ℤ) : ℚ) = 2 * (vw : ℚ) := by push_cast; ring
        rw [hc]
        ring
      rw [key, abs_div]
      norm_num
    · generalize |P.y1 - P.y0| = ph
      have key : y1 * (ph / ((2 * vh : ℤ) : ℚ)) - y0 * (ph / ((2 * vh : ℤ) : ℚ)) =
          (y1 * (ph / (vh : ℚ)) - y0 * (ph / (vh : ℚ))) / 2 := by
        have hc : ((2 * vh : ℤ) : ℚ) = 2 * (vh : ℚ) := by push_cast; ring
        rw [hc]
        ring
      rw [key, abs_div]
      norm_num

/-- C3 witness: the spec's 612×792 page under an 800×1035 viewport,
with the viewport then doubled. -/
theorem scale_rect_linear_halving_witness :
    (_scale_rect (100, 100, 300, 150) ⟨0, 0, 612, 792⟩ (1600, 2070)).width =
      (_scale_rect (100, 100, 300, 150) ⟨0, 0, 612, 792⟩ (800, 1035)).width / 2 ∧
    (_scale_rect (100, 100, 300, 150) ⟨0, 0, 612, 792⟩ (1600, 2070)).height =
      (_scale_rect (100, 100, 300, 150) ⟨0, 0, 612, 792⟩ (800, 1035)).height / 2 := by
  have h := (scale_rect_linear_halving 100 100 300 150 ⟨0, 0, 612, 792⟩ 800 1035).2
    (by decide) (by decide)
  exact_mod_cast h

lemma applyAction_bad_page (pages : List Rect) (a : AnnotAction)
    (h : (pages.length : ℤ) ≤ a.page) :
    applyAction pages a = .error "page not in document" := by
  unfold applyAction resolvePage
  rw [if_pos h]
  rfl

lemma processActions_error (pages : List Rect) :
    ∀ actions : List AnnotAction, (∃ a ∈ actions, (pages.length : ℤ) ≤ a.page) →
      ∃ e, processActions pages actions = .error e := by
  intro actions
  induction actions with
  | nil => rintro ⟨a, ha, -⟩; cases ha
  | cons b rest ih =>
    rintro ⟨a, ha, hp⟩
    rcases List.mem_cons.mp ha with rfl | hmem
    · exact ⟨_, by unfold processActions; rw [applyAction_bad_page pages a hp]; rfl⟩
    · cases hap : applyAction pages b with
      | error e => exact ⟨e, by unfold processActions; rw [hap]; rfl⟩
      | ok w =>
        obtain ⟨e, he⟩ := ih ⟨a, hmem, hp⟩
        refine ⟨e, ?_⟩
        unfold processActions
        rw [hap]
        show processActions pages rest >>= _ = _
        rw [he]
        rfl

/-- C1 counterexample: an action whose pageIndex is `-1` — outside the
zero-based page range of a one-page document — does not fail the save:
PyMuPDF page lookup wraps negative indices, the annotation is applied
to the last page, and a new version is appended. -/
theorem annotate_negative_page_cex :
    annotate ⟨0, [0]⟩ [⟨0, 0, 100, 100⟩]
      [{ type := "shape_rect", page := -1, viewport := (100, 100), rect := (10, 10, 50, 50) }] 1 =
      (⟨1, [0, 1]⟩, .okVersion 2) ∧ ¬ (0 ≤ (-1 : ℤ)) :=
  ⟨rfl, by decide⟩

/-- C1 amended: for every save request containing an action whose
pageIndex is at least the page count (the indices PyMuPDF page lookup
actually rejects), the whole request fails with a descriptive error and
the document record — versions list and working version — is exactly
what it was before. -/
theorem annotate_bad_page_atomic (st : DocState) (pages : List Rect)
    (actions : List AnnotAction) (k : ℕ)
    (h : ∃ a ∈ actions, (pages.length : ℤ) ≤ a.page) :
    (annotate st pages actions k).1 = st ∧
    ∃ e, (annotate st pages actions k).2 = Response.err e := by
  obtain ⟨e, he⟩ := processActions_error pages actions h
  have hne : actions.isEmpty = false := by
    obtain ⟨a, ha, -⟩ := h
    cases actions with
    | nil => cases ha
    | cons _ _ => rfl
  unfold annotate
  rw [hne]
  simp [he]

/-- C1 witness: a two-action request whose second action addresses page
5 of a one-page document fails and leaves the record unchanged. -/
theorem annotate_bad_page_atomic_witness :
    (annotate ⟨0, [0]⟩ [⟨0, 0, 100, 100⟩]
      [{ type := "highlight", page := 0, viewport := (100, 100), rect := (10, 10, 50, 50) },
       { type := "highlight", page := 5, viewport := (100, 100), rect := (10, 10, 50, 50) }] 1).1 =
      ⟨0, [0]⟩ ∧
    ∃ e, (annotate ⟨0, [0]⟩ [⟨0, 0, 100, 100⟩]
      [{ type := "highlight", page := 0, viewport := (100, 100), rect := (10, 10, 50, 50) },
       { type := "highlight", page := 5, viewport := (100, 100), rect := (10, 10, 50, 50) }] 1).2 =
      Response.err e :=
  annotate_bad_page_atomic ⟨0, [0]⟩ [⟨0, 0, 100, 100⟩] _ 1
    ⟨{ type := "highlight", page := 5, viewport := (100, 100), rect := (10, 10, 50, 50) },
     by simp, by decide⟩

lemma resolvePage_ok (pages : List Rect) (i : ℤ) (hp : i < (pages.length : ℤ))
    (hne : pages ≠ []) :
    resolvePage pages i = .ok (pages.getD (i.emod (pages.length : ℤ)).toNat ⟨0, 0, 0, 0⟩) := by
  unfold resolvePage
  rw [if_neg (by omega), if_neg (by simpa using hne)]

lemma applyAction_unknown (pages : List Rect) (a : AnnotAction)
    (hu : a.type ∉ knownTypes) (hp : a.page < (pages.length : ℤ)) (hne : pages ≠ []) :
    applyAction pages a = .ok [] := by
  have h1 : a.type ∉ rectTypes := fun hm => hu (List.mem_append.mpr (Or.inl hm))
  have h2 : ¬(a.type = "line" ∨ a.type = "arrow") := by
    rintro (h | h) <;> exact hu (by simp [knownTypes, h])
  have h3 : a.type ≠ "ink" := fun h => hu (by simp [knownTypes, h])
  unfold applyAction
  rw [resolvePage_ok pages a.page hp hne]
  show (if a.type ∈ rectTypes then _ else _) = _
  rw [if_neg h1, if_neg h2, if_neg h3]
  rfl

/-- C5 counterexample: a save whose only action has the unknown kind
"frobnicate" is not aborted: the action is silently skipped, the save
succeeds and a new version is appended to the ledger. -/
theorem annotate_unknown_kind_cex :
    annotate ⟨0, [0]⟩ [⟨0, 0, 100, 100⟩]
      [{ type := "frobnicate", page := 0, viewport := (100, 100) }] 1 =
      (⟨1, [0, 1]⟩, .okVersion 2) ∧ "frobnicate" ∉ knownTypes :=
  ⟨rfl, by decide⟩

/-- C5 amended: an action with a kind outside the known kinds and an
in-range page index is silently skipped by the dispatch (it writes no
annotation), and a save consisting of such an action succeeds, with a
new version appended to the ledger. -/
theorem annotate_unknown_kind_skipped (st : DocState) (pages : List Rect)
    (a : AnnotAction) (k : ℕ)
    (hu : a.type ∉ knownTypes) (hp : a.page < (pages.length : ℤ)) (hne : pages ≠ []) :
    applyAction pages a = .ok [] ∧
    annotate st pages [a] k =
      ({ working := k, versions := st.versions ++ [k] },
       .okVersion (st.versions.length + 1)) := by
  have happ := applyAction_unknown pages a hu hp hne
  refine ⟨happ, ?_⟩
  have hproc : processActions pages [a] = .ok [] := by
    unfold processActions processActions
    rw [happ]
    rfl
  unfold annotate
  rw [show ([a] : List AnnotAction).isEmpty = false from rfl]
  simp [hproc]

/-- C5 witness: the skipped "frobnicate" action at page 0 of a concrete
one-page document. -/
theorem annotate_unknown_kind_skipped_witness :
    applyAction [⟨0, 0, 100, 100⟩] { type := "frobnicate", page := 0, viewport := (100, 100) } =
      .ok [] ∧
    annotate ⟨0, [0]⟩ [⟨0, 0, 100, 100⟩]
      [{ type := "frobnicate", page := 0, viewport := (100, 100) }] 1 =
      (⟨1, [0] ++ [1]⟩, .okVersion ([0].length + 1)) :=
  annotate_unknown_kind_skipped ⟨0, [0]⟩ [⟨0, 0, 100, 100⟩]
    { type := "frobnicate", page := 0, viewport := (100, 100) } 1
    (by decide) (by decide) (by decide)

lemma applyAction_err (pages : List Rect) (a : AnnotAction) (e : String)
    (hres : resolvePage pages a.page = .error e) :
    applyAction pages a = .error e := by
  unfold applyAction
  rw [hres]
  rfl

lemma applyAction_ink_eq (pages : List Rect) (a : AnnotAction) (pr : Rect)
    (ht : a.type = "ink") (hres : resolvePage pages a.page = .ok pr) :
    applyAction pages a =
      (let strokes := (a.strokes.map
          (fun s => s.map (fun p => _scale_point p pr a.viewport))).filter
          (fun s => 1 < s.length)
       if strokes.isEmpty then .ok [] else .ok [Written.inkAnnot strokes]) := by
  unfold applyAction
  rw [hres, ht]
  rfl

/-- C6: server side, every ink sub-stroke written has at least 2 points
(shorter sub-strokes are dropped before writing); an ink action all of
whose sub-strokes have fewer than 2 points writes nothing and the save
of such an action still succeeds, appending a version; client side, a
recorded ink stroke of exactly 1 point is not committed on mouseup and
the editor state — in particular the pending list and its length — is
unchanged. -/
theorem ink_short_strokes_dropped (pages : List Rect) (a : AnnotAction) (st : DocState)
    (k cp : ℕ) (stroke : List Point) (es : EditorState CAction) :
    (a.type = "ink" → ∀ w, applyAction pages a = .ok w →
      ∀ ss, Written.inkAnnot ss ∈ w → ∀ s ∈ ss, 2 ≤ s.length) ∧
    (a.type = "ink" → (∀ s ∈ a.strokes, s.length < 2) →
      a.page < (pages.length : ℤ) → pages ≠ [] →
      applyAction pages a = .ok [] ∧
      annotate st pages [a] k =
        ({ working := k, versions := st.versions ++ [k] },
         .okVersion (st.versions.length + 1))) ∧
    (stroke.length = 1 → inkMouseUp cp stroke es = es ∧
      (inkMouseUp cp stroke es).stack.length = es.stack.length) := by
  refine ⟨?_, ?_, ?_⟩
  · intro ht w hw ss hss s hs
    cases hres : resolvePage pages a.page with
    | error e =>
      rw [applyAction_err pages a e hres] at hw
      cases hw
    | ok pr =>
      rw [applyAction_ink_eq pages a pr ht hres] at hw
      dsimp only at hw
      split at hw
      · cases hw
        cases hss
      · cases hw
        have hinj := List.mem_singleton.mp hss
        injection hinj with hinj2
        rw [hinj2] at hs
        have := (List.mem_filter.mp hs).2
        simp only [decide_eq_true_eq] at this
        omega
  · intro ht hshort hp hne
    have hres := resolvePage_ok pages a.page hp hne
    have hfil : ((a.strokes.map
        (fun s => s.map (fun p =>
          _scale_point p (pages.getD ((a.page).emod (pages.length : ℤ)).toNat ⟨0, 0, 0, 0⟩)
            a.viewport))).filter (fun s => 1 < s.length)) = [] := by
      rw [List.filter_eq_nil_iff]
      intro s hs
      obtain ⟨t, hts, rfl⟩ := List.mem_map.mp hs
      have := hshort t hts
      simp only [List.length_map, decide_eq_true_eq]
      omega
    have happ : applyAction pages a = .ok [] := by
      rw [applyAction_ink_eq pages a _ ht hres]
      dsimp only
      rw [hfil]
      rfl
    refine ⟨happ, ?_⟩
    have hproc : processActions pages [a] = .ok [] := by
      unfold processActions processActions
      rw [happ]
      rfl
    unfold annotate
    rw [show ([a] : List AnnotAction).isEmpty = false from rfl]
    simp [hproc]
  · intro hlen
    have h1 : ¬ (1 < stroke.length) := by omega
    unfold inkMouseUp
    rw [if_neg h1]
    exact ⟨rfl, rfl⟩

/-- C6 witness: a one-point ink stroke on a one-page document is
skipped server-side with the save succeeding, and not committed
client-side. -/
theorem ink_short_strokes_dropped_witness :
    ((({ type := "ink", page := 0, viewport := (100, 100), strokes := [[(5, 5)]] } :
        AnnotAction).type = "ink") → ∀ w,
      applyAction [⟨0, 0, 100, 100⟩]
        { type := "ink", page := 0, viewport := (100, 100), strokes := [[(5, 5)]] } = .ok w →
      ∀ ss, Written.inkAnnot ss ∈ w → ∀ s ∈ ss, 2 ≤ s.length) ∧
    (applyAction [⟨0, 0, 100, 100⟩]
        { type := "ink", page := 0, viewport := (100, 100), strokes := [[(5, 5)]] } = .ok [] ∧
      annotate ⟨0, [0]⟩ [⟨0, 0, 100, 100⟩]
        [{ type := "ink", page := 0, viewport := (100, 100), strokes := [[(5, 5)]] }] 1 =
        (⟨1, [0] ++ [1]⟩, .okVersion ([0].length + 1))) ∧
    (inkMouseUp 0 [(5, 5)] (resetStacks CAction) = resetStacks CAction ∧
      (inkMouseUp 0 [(5, 5)] (resetStacks CAction)).stack.length =
        (resetStacks CAction).stack.length) := by
  have h := ink_short_strokes_dropped [⟨0, 0, 100, 100⟩]
    { type := "ink", page := 0, viewport := (100, 100), strokes := [[(5, 5)]] }
    ⟨0, [0]⟩ 1 0 [(5, 5)] (resetStacks CAction)
  exact ⟨h.1, h.2.1 rfl (by decide) (by decide) (by decide), h.2.2 rfl⟩

lemma applyAction_line_eq (pages : List Rect) (a : AnnotAction) (pr : Rect) (p1 p2 : Point)
    (ht : a.type = "line" ∨ a.type = "arrow")
    (hres : resolvePage pages a.page = .ok pr) (hpts : a.pts = [p1, p2]) :
    applyAction pages a =
      (let q1 := _scale_point p1 pr a.viewport
       let q2 := _scale_point p2 pr a.viewport
       let q2d := if q1 = q2 then (min pr.x1 (q2.1 + 5), min pr.y1 (q2.2 + 5)) else q2
       .ok [Written.lineAnnot q1 q2d]) := by
  rcases ht with h | h <;>
  · unfold applyAction
    rw [hres, hpts, h]
    rfl

/-- C9 counterexample: a line whose two mapped points coincide at the
page's bottom-right corner is written with equal endpoints — the
degradation `p2 = (min(x1, x+5), min(y1, y+5))` collapses back onto the
point, so the pipeline does commit a zero-length segment there. -/
theorem line_zero_length_cex :
    applyAction [⟨0, 0, 100, 100⟩]
      { type := "line", page := 0, viewport := (100, 100), pts := [(100, 100), (100, 100)] } =
      .ok [Written.lineAnnot (100, 100) (100, 100)] := by
  rw [applyAction_line_eq [⟨0, 0, 100, 100⟩]
    { type := "line", page := 0, viewport := (100, 100), pts := [(100, 100), (100, 100)] }
    ⟨0, 0, 100, 100⟩ (100, 100) (100, 100) (Or.inl rfl) (by rfl) (by rfl)]
  have hs : _scale_point ((100 : ℚ), (100 : ℚ)) ⟨0, 0, 100, 100⟩ ((100 : ℤ), (100 : ℤ)) =
      ((100 : ℚ), (100 : ℚ)) := by
    unfold _scale_point Rect.width Rect.height
    norm_num
  dsimp only
  rw [hs, if_pos rfl]
  norm_num

/-- C9 amended: the client never commits a line/arrow shorter than the
minimum drag (in particular never a zero-length one), and when the two
mapped points coincide the pipeline writes the segment to the degraded
endpoint `(min(x1, x+5), min(y1, y+5))`, which differs from the start
point whenever the coincident point is strictly left of the page's
right edge or strictly above its bottom edge; at the bottom-right
corner the degraded endpoint coincides with the start point (the
counterexample). -/
theorem line_degrade_spec (tool : String) (cp : ℕ) (sig : Bool) (p1 p2 : Point)
    (pages : List Rect) (a : AnnotAction) (pr : Rect) (q : Point) :
    ((tool = "line" ∨ tool = "arrow") → distSq p1 p2 < 9 →
      buildActionFromDrag tool cp sig p1 p2 = none) ∧
    ((a.type = "line" ∨ a.type = "arrow") → resolvePage pages a.page = .ok pr →
      a.pts = [p1, p2] →
      _scale_point p1 pr a.viewport = q → _scale_point p2 pr a.viewport = q →
      applyAction pages a =
        .ok [Written.lineAnnot q (min pr.x1 (q.1 + 5), min pr.y1 (q.2 + 5))] ∧
      ((q.1 < pr.x1 ∨ q.2 < pr.y1) →
        (min pr.x1 (q.1 + 5), min pr.y1 (q.2 + 5)) ≠ q)) := by
  constructor
  · rintro (h | h) h9 <;>
    · subst h
      simp [buildActionFromDrag, h9]
  · intro ht hres hpts hq1 hq2
    constructor
    · rw [applyAction_line_eq pages a pr p1 p2 ht hres hpts]
      dsimp only
      rw [hq1, hq2, if_pos rfl]
    · rintro (hlt | hlt) heq
      · have h1 := congrArg Prod.fst heq
        dsimp at h1
        have h2 : q.1 < min pr.x1 (q.1 + 5) := lt_min hlt (by linarith)
        rw [h1] at h2
        exact lt_irrefl _ h2
      · have h1 := congrArg Prod.snd heq
        dsimp at h1
        have h2 : q.2 < min pr.y1 (q.2 + 5) := lt_min hlt (by linarith)
        rw [h1] at h2
        exact lt_irrefl _ h2

/-- C9 witness: a sub-threshold drag builds no line action, and a line
whose points both map to (50, 50) on a 100×100 page is written to the
distinct degraded endpoint (55, 55). -/
theorem line_degrade_spec_witness :
    (buildActionFromDrag "line" 0 false (10, 10) (11, 11) = none) ∧
    (applyAction [⟨0, 0, 100, 100⟩]
        { type := "line", page := 0, viewport := (100, 100), pts := [(50, 50), (50, 50)] } =
        .ok [Written.lineAnnot (50, 50)
          (min (100 : ℚ) ((50 : ℚ) + 5), min (100 : ℚ) ((50 : ℚ) + 5))] ∧
      (((50 : ℚ) < 100 ∨ (50 : ℚ) < 100) →
        ((min (100 : ℚ) ((50 : ℚ) + 5), min (100 : ℚ) ((50 : ℚ) + 5)) :
          Point) ≠ ((50 : ℚ), (50 : ℚ)))) := by
  have h := line_degrade_spec "line" 0 false ((10 : ℚ), (10 : ℚ)) ((11 : ℚ), (11 : ℚ))
    [⟨0, 0, 100, 100⟩]
    { type := "line", page := 0, viewport := (100, 100), pts := [(10, 10), (11, 11)] }
    ⟨0, 0, 100, 100⟩ ((50 : ℚ), (50 : ℚ))
  have hb := line_degrade_spec "line" 0 false ((50 : ℚ), (50 : ℚ)) ((50 : ℚ), (50 : ℚ))
    [⟨0, 0, 100, 100⟩]
    { type := "line", page := 0, viewport := (100, 100), pts := [(50, 50), (50, 50)] }
    ⟨0, 0, 100, 100⟩ ((50 : ℚ), (50 : ℚ))
  have hscale : _scale_point ((50 : ℚ), (50 : ℚ)) ⟨0, 0, 100, 100⟩ ((100 : ℤ), (100 : ℤ)) =
      ((50 : ℚ), (50 : ℚ)) := by
    unfold _scale_point Rect.width Rect.height
    norm_num
  have h2 := hb.2 (Or.inl rfl) (by rfl) (by rfl) hscale hscale
  refine ⟨?_, h2⟩
  exact h.1 (Or.inl rfl) (by unfold distSq; norm_num)

lemma ensure_min_rect_eq (r P : Rect) (m n : ℚ) :
    _ensure_min_rect r P m n =
      (let cx := (r.x0 + r.x1) / 2
       let cy := (r.y0 + r.y1) / 2
       let r2 : Rect := ⟨if |r.x1 - r.x0| < m then cx - m / 2 else r.x0,
                         if |r.y1 - r.y0| < n then cy - n / 2 else r.y0,
                         if |r.x1 - r.x0| < m then cx + m / 2 else r.x1,
                         if |r.y1 - r.y0| < n then cy + n / 2 else r.y1⟩
       let r3 := _clip_rect r2 P
       if r3.width ≤ 0 ∨ r3.height ≤ 0 then
         _clip_rect ⟨cx - m / 2, cy - n / 2, cx + m / 2, cy + n / 2⟩ P
       else r3) := by
  unfold _ensure_min_rect
  by_cases h1 : |r.x1 - r.x0| < m <;> by_cases h2 : |r.y1 - r.y0| < n <;>
    simp [Rect.width, Rect.height, h1, h2]

lemma clamp_ge (lo hi a b c m : ℚ) (ha : a ≤ c - m / 2) (hb : c + m / 2 ≤ b)
    (h1 : lo ≤ c - m / 2) (h2 : c + m / 2 ≤ hi) :
    m ≤ max lo (min hi b) - max lo (min hi a) := by
  have l1 : max lo (min hi a) ≤ c - m / 2 := max_le h1 (le_trans (min_le_right hi a) ha)
  have l2 : c + m / 2 ≤ max lo (min hi b) := le_trans (le_min h2 hb) (le_max_right lo (min hi b))
  linarith

/-- C2 counterexample: with bounds 0..100 on each axis and minimum size
2, the degenerate input rect at (99.5, 99.5) is expanded around its
centre and then clipped back below the minimum: the result has width
3/2 < 2 (the clip near the page edge defeats the minimum-size
guarantee), although the bounds are non-degenerate. -/
theorem ensure_min_rect_cex :
    (_ensure_min_rect ⟨199 / 2, 199 / 2, 199 / 2, 199 / 2⟩ ⟨0, 0, 100, 100⟩ 2 2).width = 3 / 2 ∧
    (3 / 2 : ℚ) < 2 ∧ ((0 : ℚ) < 100) := by
  refine ⟨?_, by norm_num, by norm_num⟩
  rw [ensure_min_rect_eq]
  norm_num [_clip_rect, Rect.width, Rect.height]

lemma ite_clip_within (c : Prop) [Decidable c] (e1 e2 P : Rect)
    (hPx : P.x0 ≤ P.x1) (hPy : P.y0 ≤ P.y1) :
    rectWithin (if c then _clip_rect e1 P else _clip_rect e2 P) P := by
  split
  · exact clip_rect_within e1 P hPx hPy
  · exact clip_rect_within e2 P hPx hPy

lemma minsize_core (X0 Y0 X1 Y1 : ℚ) (F : Rect) (m n : ℚ) (hm : 0 < m) (hn : 0 < n)
    (hx : m ≤ X1 - X0) (hy : n ≤ Y1 - Y0) :
    m ≤ (if (⟨X0, Y0, X1, Y1⟩ : Rect).width ≤ 0 ∨ (⟨X0, Y0, X1, Y1⟩ : Rect).height ≤ 0
         then F else ⟨X0, Y0, X1, Y1⟩).width ∧
    n ≤ (if (⟨X0, Y0, X1, Y1⟩ : Rect).width ≤ 0 ∨ (⟨X0, Y0, X1, Y1⟩ : Rect).height ≤ 0
         then F else ⟨X0, Y0, X1, Y1⟩).height := by
  rw [if_neg]
  · exact ⟨le_trans hx (le_abs_self _), le_trans hy (le_abs_self _)⟩
  · rw [not_or]
    constructor
    · show ¬ |X1 - X0| ≤ 0
      intro h
      have h2 := le_trans (le_abs_self _) h
      linarith
    · show ¬ |Y1 - Y0| ≤ 0
      intro h
      have h2 := le_trans (le_abs_self _) h
      linarith

/-- C2 amended: for every input rect and ordered bounds, the result of
`_ensure_min_rect` lies entirely within the bounds; the minimum-size
guarantee (width ≥ minW and height ≥ minH) holds when the input rect is
ordered and its centre keeps at least half the minimum away from every
edge of the bounds — near the edges, clipping can leave the result
smaller than the minimum (see the counterexample). -/
theorem ensure_min_rect_spec (r P : Rect) (m n : ℚ) (hm : 0 < m) (hn : 0 < n)
    (hPx : P.x0 ≤ P.x1) (hPy : P.y0 ≤ P.y1) :
    rectWithin (_ensure_min_rect r P m n) P ∧
    (r.x0 ≤ r.x1 → r.y0 ≤ r.y1 →
      P.x0 + m / 2 ≤ (r.x0 + r.x1) / 2 → (r.x0 + r.x1) / 2 ≤ P.x1 - m / 2 →
      P.y0 + n / 2 ≤ (r.y0 + r.y1) / 2 → (r.y0 + r.y1) / 2 ≤ P.y1 - n / 2 →
      m ≤ (_ensure_min_rect r P m n).width ∧ n ≤ (_ensure_min_rect r P m n).height) := by
  constructor
  · rw [ensure_min_rect_eq]
    exact ite_clip_within _ _ _ P hPx hPy
  · intro hxr hyr h1 h2 h3 h4
    have hax : (if |r.x1 - r.x0| < m then (r.x0 + r.x1) / 2 - m / 2 else r.x0) ≤
        (r.x0 + r.x1) / 2 - m / 2 := by
      split_ifs with h
      · exact le_refl _
      · push_neg at h
        rw [abs_of_nonneg (by linarith)] at h
        linarith
    have hbx : (r.x0 + r.x1) / 2 + m / 2 ≤
        (if |r.x1 - r.x0| < m then (r.x0 + r.x1) / 2 + m / 2 else r.x1) := by
      split_ifs with h
      · exact le_refl _
      · push_neg at h
        rw [abs_of_nonneg (by linarith)] at h
        linarith
    have hay : (if |r.y1 - r.y0| < n then (r.y0 + r.y1) / 2 - n / 2 else r.y0) ≤
        (r.y0 + r.y1) / 2 - n / 2 := by
      split_ifs with h
      · exact le_refl _
      · push_neg at h
        rw [abs_of_nonneg (by linarith)] at h
        linarith
    have hby : (r.y0 + r.y1) / 2 + n / 2 ≤
        (if |r.y1 - r.y0| < n then (r.y0 + r.y1) / 2 + n / 2 else r.y1) := by
      split_ifs with h
      · exact le_refl _
      · push_neg at h
        rw [abs_of_nonneg (by linarith)] at h
        linarith
    have hx := clamp_ge P.x0 P.x1 _ _ ((r.x0 + r.x1) / 2) m hax hbx (by linarith) (by linarith)
    have hy := clamp_ge P.y0 P.y1 _ _ ((r.y0 + r.y1) / 2) n hay hby (by linarith) (by linarith)
    rw [ensure_min_rect_eq]
    exact minsize_core _ _ _ _ _ m n hm hn hx hy

/-- C2 witness: a 10×10 rect centred well inside a 100×100 page keeps
the 2×2 minimum and stays within bounds. -/
theorem ensure_min_rect_spec_witness :
    rectWithin (_ensure_min_rect ⟨45, 45, 55, 55⟩ ⟨0, 0, 100, 100⟩ 2 2) ⟨0, 0, 100, 100⟩ ∧
    (2 ≤ (_ensure_min_rect ⟨45, 45, 55, 55⟩ ⟨0, 0, 100, 100⟩ 2 2).width ∧
     2 ≤ (_ensure_min_rect ⟨45, 45, 55, 55⟩ ⟨0, 0, 100, 100⟩ 2 2).height) := by
  have h := ensure_min_rect_spec ⟨45, 45, 55, 55⟩ ⟨0, 0, 100, 100⟩ 2 2
    (by norm_num) (by norm_num) (by norm_num) (by norm_num)
  exact ⟨h.1, h.2 (by norm_num) (by norm_num) (by norm_num) (by norm_num)
    (by norm_num) (by norm_num)⟩

/-- C8: hit-testing walks the pending list from the newest action down,
restricted to the current page, and returns the first hit; so with an
earlier overlapping rect object `a` in the stack and the later rect
object `b` last, a click inside both rects that stays away from `b`'s
corner handles selects `b` — the object created later — with a
move-hit. -/
theorem hit_test_topmost (l : List CAction) (a b : CAction) (cp : ℕ) (x y : ℚ)
    (ax0 ay0 ax1 ay1 bx0 by0 bx1 by1 : ℚ)
    (ha : a ∈ l) (hap : a.page = cp) (haR : a.rect = (ax0, ay0, ax1, ay1))
    (hax : ax0 ≤ x) (hax2 : x ≤ ax1) (hay : ay0 ≤ y) (hay2 : y ≤ ay1)
    (hbp : b.page = cp) (hbl : b.type ≠ "line") (hba : b.type ≠ "arrow")
    (hbR : b.rect = (bx0, by0, bx1, by1))
    (hbx : bx0 ≤ x) (hbx2 : x ≤ bx1) (hby : by0 ≤ y) (hby2 : y ≤ by1)
    (h1 : ¬(|x - bx0| ≤ 8 ∧ |y - by0| ≤ 8))
    (h2 : ¬(|x - bx1| ≤ 8 ∧ |y - by0| ≤ 8))
    (h3 : ¬(|x - bx1| ≤ 8 ∧ |y - by1| ≤ 8))
    (h4 : ¬(|x - bx0| ≤ 8 ∧ |y - by1| ≤ 8)) :
    hitTestAt (l ++ [b]) cp x y = some ⟨l.length, cp, "move"⟩ := by
  have hone : hitOne b l.length cp x y = some ⟨l.length, cp, "move"⟩ := by
    unfold hitOne
    rw [if_neg (by simp [hbp])]
    rw [if_neg (by rintro (h | h); exacts [hbl h, hba h])]
    rw [hbR]
    dsimp only
    rw [if_neg h1, if_neg h2, if_neg h3, if_neg h4,
      if_pos ⟨by linarith, by linarith, by linarith, by linarith⟩]
  unfold hitTestAt
  have hlen : (l ++ [b]).length = l.length + 1 := by simp
  rw [hlen]
  unfold hitTestGo
  rw [List.getElem?_concat_length]
  dsimp only
  rw [hone]

/-- C8 witness: two overlapping rects on page 0 — the earlier one at
(0,0)–(50,50), the later one at (40,40)–(90,90) — and a click at
(49,49) inside the overlap and away from every corner handle of the
later rect: the later rect (index 1) is selected. -/
theorem hit_test_topmost_witness :
    hitTestAt [{ type := "shape_rect", page := 0, rect := (0, 0, 50, 50) },
               { type := "shape_rect", page := 0, rect := (40, 40, 90, 90) }] 0 49 49 =
      some ⟨1, 0, "move"⟩ := by
  have h := hit_test_topmost [{ type := "shape_rect", page := 0, rect := (0, 0, 50, 50) }]
    { type := "shape_rect", page := 0, rect := (0, 0, 50, 50) }
    { type := "shape_rect", page := 0, rect := (40, 40, 90, 90) } 0 49 49
    0 0 50 50 40 40 90 90
    (by simp) rfl rfl
    (by norm_num) (by norm_num) (by norm_num) (by norm_num)
    rfl (by decide) (by decide) rfl
    (by norm_num) (by norm_num) (by norm_num) (by norm_num)
    (by norm_num) (by norm_num) (by norm_num) (by norm_num)
  exact h

lemma runStacks_length {α : Type} : ∀ (fs : List (List α → List α)) (st : List α),
    (runStacks fs st).length = fs.length := by
  intro fs
  induction fs with
  | nil => intro st; rfl
  | cons f fs ih => intro st; simp [runStacks, ih]

lemma getLastD_getD {β : Type} : ∀ (l : List β) (d : β),
    l.getLastD d = (d :: l).getD l.length d := by
  intro l
  induction l with
  | nil => intro d; rfl
  | cons a l2 ih =>
    intro d
    rw [List.getLastD_cons]
    show l2.getLastD a = (d :: a :: l2).getD (l2.length + 1) d
    rw [List.getD_cons_succ]
    have h2 : (a :: l2).getD l2.length a = (a :: l2).getD l2.length d := by
      rw [List.getD_eq_getElem _ _ (by simp), List.getD_eq_getElem _ _ (by simp)]
    exact (ih a).trans h2

lemma mutate_eq {α : Type} (f : List α → List α) (s : EditorState α)
    (hidx : s.historyIdx = (s.history.length : ℤ) - 1) :
    mutateStack f s = ⟨f s.stack, s.history ++ [f s.stack], (s.history.length : ℤ)⟩ := by
  unfold mutateStack snapshot
  dsimp only
  have h1 : (s.historyIdx + 1).toNat = s.history.length := by omega
  rw [h1, List.take_length]
  simp

lemma applyMuts_eq {α : Type} : ∀ (fs : List (List α → List α)) (s : EditorState α),
    s.historyIdx = (s.history.length : ℤ) - 1 →
    applyMuts fs s = ⟨(runStacks fs s.stack).getLastD s.stack,
      s.history ++ runStacks fs s.stack,
      ((s.history.length + (runStacks fs s.stack).length : ℕ) : ℤ) - 1⟩ := by
  intro fs
  induction fs with
  | nil =>
    intro s hidx
    cases s with
    | mk st h i => simp_all [applyMuts, runStacks]
  | cons f fs ih =>
    intro s hidx
    show applyMuts fs (mutateStack f s) = _
    rw [mutate_eq f s hidx]
    rw [ih ⟨f s.stack, s.history ++ [f s.stack], (s.history.length : ℤ)⟩ (by simp)]
    dsimp only
    simp only [runStacks, List.getLastD_cons, List.append_assoc, List.singleton_append,
      List.length_append, List.length_cons, List.length_nil]
    congr 1
    push_cast
    omega

lemma undoN_eq {α : Type} : ∀ (k j : ℕ) (s : EditorState α),
    s.historyIdx = (j : ℤ) → k ≤ j → s.stack = s.history.getD j [] →
    undoN k s = ⟨s.history.getD (j - k) [], s.history, ((j - k : ℕ) : ℤ)⟩ := by
  intro k
  induction k with
  | zero =>
    intro j s h1 h2 h3
    cases s with
    | mk st h i => simp_all [undoN]
  | succ k ih =>
    intro j s h1 h2 h3
    show undoN k (undo s) = _
    have hpos : 0 < s.historyIdx := by omega
    have hu : undo s = ⟨s.history.getD (j - 1) [], s.history, ((j - 1 : ℕ) : ℤ)⟩ := by
      unfold undo
      rw [if_pos hpos]
      have ht : (s.historyIdx - 1).toNat = j - 1 := by omega
      rw [ht, h1]
      have : (j : ℤ) - 1 = ((j - 1 : ℕ) : ℤ) := by omega
      rw [this]
    rw [hu]
    rw [ih (j - 1) ⟨s.history.getD (j - 1) [], s.history, ((j - 1 : ℕ) : ℤ)⟩ rfl
      (by omega) rfl]
    have he : j - 1 - k = j - (k + 1) := by omega
    rw [he]

lemma redoN_eq {α : Type} : ∀ (k j : ℕ) (s : EditorState α),
    s.historyIdx = (j : ℤ) → j + k ≤ s.history.length - 1 → 1 ≤ s.history.length →
    s.stack = s.history.getD j [] →
    redoN k s = ⟨s.history.getD (j + k) [], s.history, ((j + k : ℕ) : ℤ)⟩ := by
  intro k
  induction k with
  | zero =>
    intro j s h1 h2 hl h3
    cases s with
    | mk st h i => simp_all [redoN]
  | succ k ih =>
    intro j s h1 h2 hl h3
    show redoN k (redo s) = _
    have hlt : s.historyIdx < (s.history.length : ℤ) - 1 := by omega
    have hr : redo s = ⟨s.history.getD (j + 1) [], s.history, ((j + 1 : ℕ) : ℤ)⟩ := by
      unfold redo
      rw [if_pos hlt]
      have ht : (s.historyIdx + 1).toNat = j + 1 := by omega
      rw [ht, h1]
      have : (j : ℤ) + 1 = ((j + 1 : ℕ) : ℤ) := by omega
      rw [this]
    rw [hr]
    rw [ih (j + 1) ⟨s.history.getD (j + 1) [], s.history, ((j + 1 : ℕ) : ℤ)⟩ rfl
      (by dsimp only; omega) (by dsimp only; omega) rfl]
    have he : j + 1 + k = j + (k + 1) := by omega
    rw [he]

/-- C7: starting from the freshly reset editing session, applying any
sequence of N mutations and then clicking Undo N times restores the
empty pending list; clicking Redo N times after that restores the
pending list reached after the N mutations; moreover undo is a no-op at
cursor position 0 (the state after the N undos) and redo is a no-op at
the newest snapshot (the state after the N mutations). -/
theorem undo_redo_roundtrip (α : Type) (fs : List (List α → List α)) :
    (undoN fs.length (applyMuts fs (resetStacks α))).stack = [] ∧
    (redoN fs.length (undoN fs.length (applyMuts fs (resetStacks α)))).stack =
      (applyMuts fs (resetStacks α)).stack ∧
    undo (undoN fs.length (applyMuts fs (resetStacks α))) =
      undoN fs.length (applyMuts fs (resetStacks α)) ∧
    redo (applyMuts fs (resetStacks α)) = applyMuts fs (resetStacks α) := by
  have hreset : resetStacks α = ⟨[], [[]], 0⟩ := rfl
  have hn := runStacks_length fs ([] : List α)
  set R := runStacks fs ([] : List α) with hR
  set L : List (List α) := [] :: R with hLdef
  have happ2 : applyMuts fs (resetStacks α) = ⟨L.getD fs.length [], L, (fs.length : ℤ)⟩ := by
    rw [hreset]
    rw [applyMuts_eq fs ⟨[], [[]], 0⟩ (by simp)]
    rw [EditorState.mk.injEq]
    refine ⟨?_, ?_, ?_⟩
    · show R.getLastD [] = L.getD fs.length []
      rw [getLastD_getD R [], hn]
    · show ([[]] : List (List α)) ++ R = L
      rw [hLdef]
      simp
    · show ((([[]] : List (List α)).length + R.length : ℕ) : ℤ) - 1 = (fs.length : ℤ)
      simp [hn]
  have hundo : undoN fs.length (applyMuts fs (resetStacks α)) =
      ⟨L.getD 0 [], L, ((0 : ℕ) : ℤ)⟩ := by
    rw [happ2]
    rw [undoN_eq fs.length fs.length ⟨L.getD fs.length [], L, (fs.length : ℤ)⟩ rfl le_rfl rfl]
    simp
  have hL0 : L.getD 0 [] = ([] : List α) := rfl
  have hLlen : L.length = fs.length + 1 := by
    rw [hLdef]
    simp [hn]
  refine ⟨?_, ?_, ?_, ?_⟩
  · rw [hundo]
    exact hL0
  · rw [hundo]
    rw [redoN_eq fs.length 0 ⟨L.getD 0 [], L, ((0 : ℕ) : ℤ)⟩ rfl
      (by dsimp only; omega) (by dsimp only; omega) rfl]
    rw [happ2]
    simp
  · rw [hundo]
    unfold undo
    rw [if_neg (by norm_num)]
  · rw [happ2]
    unfold redo
    rw [if_neg (by dsimp only; omega)]

/-- C7 witness: two concrete mutations, two undos, two redos. -/
theorem undo_redo_roundtrip_witness :
    (undoN 2 (applyMuts [fun l => l ++ [1], fun l => l ++ [2]] (resetStacks ℕ))).stack = [] ∧
    (redoN 2 (undoN 2 (applyMuts [fun l => l ++ [1], fun l => l ++ [2]]
        (resetStacks ℕ)))).stack =
      (applyMuts [fun l => l ++ [1], fun l => l ++ [2]] (resetStacks ℕ)).stack ∧
    undo (undoN 2 (applyMuts [fun l => l ++ [1], fun l => l ++ [2]] (resetStacks ℕ))) =
      undoN 2 (applyMuts [fun l => l ++ [1], fun l => l ++ [2]] (resetStacks ℕ)) ∧
    redo (applyMuts [fun l => l ++ [1], fun l => l ++ [2]] (resetStacks ℕ)) =
      applyMuts [fun l => l ++ [1], fun l => l ++ [2]] (resetStacks ℕ) :=
  undo_redo_roundtrip ℕ [fun l => l ++ [1], fun l => l ++ [2]]
